import Mathlib

/-!
Verification of the real-time position-synchronization core of "the-ether".

The definitions below are a shallow embedding of the code that implements
the sync protocol:

* the Socket.io server handlers from `src/lib/server/socket.ts`
  (`setupSocketServer`: `space:join`, `space:leave`, `content:move`,
  `content:add`, `disconnect`);
* the client component state logic from
  `src/lib/components/ether/ether-space.svelte`
  (`updateItemPosition` and the `content:moved` / `content:added` listeners);
* the client socket utility from `src/lib/socket-client.ts`
  (`pendingMessages`, `emitWithRetry`, the `connect` handler);
* the LRU cache from `src/lib/utils/memory.ts` (`MemoryManager`).

JS strings are embedded as `String`, JS numbers used as positions as `Int`
(they are only passed through, never computed with), timestamps
(`Date.now()`) as an explicit `Nat` parameter.  A Socket.io room membership
set is embedded as a duplicate-free association list in join order; a JS
`Map` as an association list in insertion order (`Map.set` of an existing
key keeps its slot, of a new key appends).
-/

namespace TheEther

/-- `EtherContentPosition` from `$lib/types/ether-content`: the position part of
a content item (the drag handler only ever sends `x` and `y`). -/
structure EtherContentPosition where
  x : Int
  y : Int
deriving DecidableEq

/-- A content item as the sync logic sees it: only `id` and `position` are ever
inspected; every other field (`title`, `content`, `url`, ...) is opaque to the
sync code and lumped into `data`. -/
structure EtherContent where
  id : String
  position : EtherContentPosition
  data : String
deriving DecidableEq

/-! ## Server — `setupSocketServer` in `src/lib/server/socket.ts` -/

/-- Server-side state.  The only state the server keeps is Socket.io's
room-membership relation (`socket.join` / `socket.leave`): pairs of
(socket id, room name).  In particular the server stores no per-item
content state, no versions, and no per-connection queues. -/
structure ServerState where
  rooms : List (String × String)
deriving DecidableEq

/-- The payloads the server emits, exactly as built in the handlers. -/
inductive Payload where
  | userJoined (userId username socketId : String)
  | userLeft (socketId : String)
  | contentMoved (contentId : String) (position : EtherContentPosition)
  | contentAdded (content : EtherContent)
deriving DecidableEq

/-- One `emit` performed by the server: a target socket, an event name and a
payload. -/
structure Emission where
  target : String
  event : String
  payload : Payload
deriving DecidableEq

/-- The room name used by every handler: `` `space:${spaceId}` ``. -/
def roomName (spaceId : String) : String := "space:" ++ spaceId

/-- The sockets currently in a room. -/
def membersOf (st : ServerState) (room : String) : List String :=
  (st.rooms.filter (fun m => m.2 == room)).map (fun m => m.1)

/-- `socket.join(room)`: Socket.io rooms are sets, so joining twice is a
no-op. -/
def joinRoom (st : ServerState) (sock room : String) : ServerState :=
  if (sock, room) ∈ st.rooms then st else ⟨st.rooms ++ [(sock, room)]⟩

/-- `socket.leave(room)`. -/
def leaveRoom (st : ServerState) (sock room : String) : ServerState :=
  ⟨st.rooms.filter (fun m => m ≠ (sock, room))⟩

/-- `socket.to(room).emit(ev, p)`: emit to every socket currently in `room`
except the sender. -/
def broadcastExcept (st : ServerState) (room sender ev : String) (p : Payload) :
    List Emission :=
  ((membersOf st room).filter (fun t => t != sender)).map (fun t => ⟨t, ev, p⟩)

/-- The `space:join` handler: join the room, then notify the others with
`user:joined {userId, username, socketId}`.  There is no reply, ack or
validation of any kind. -/
def handleSpaceJoin (st : ServerState) (sock spaceId userId userName : String) :
    ServerState × List Emission :=
  let room := roomName spaceId
  let st' := joinRoom st sock room
  (st', broadcastExcept st' room sock "user:joined" (.userJoined userId userName sock))

/-- The `space:leave` handler: leave the room, then notify the others with
`user:left {socketId}` (the payload carries only the socket id). -/
def handleSpaceLeave (st : ServerState) (sock spaceId : String) :
    ServerState × List Emission :=
  let room := roomName spaceId
  let st' := leaveRoom st sock room
  (st', broadcastExcept st' room sock "user:left" (.userLeft sock))

/-- The `content:move` handler: relay the move to the rest of the room as
`content:moved {contentId, position}`.  The server state is untouched — no
content state is read or written, the wire data carries no version, and the
handler has no rejection branch. -/
def handleContentMove (st : ServerState) (sock spaceId contentId : String)
    (position : EtherContentPosition) : ServerState × List Emission :=
  (st, broadcastExcept st (roomName spaceId) sock "content:moved"
        (.contentMoved contentId position))

/-- The `content:add` handler: relay as `content:added {content}`. -/
def handleContentAdd (st : ServerState) (sock spaceId : String)
    (content : EtherContent) : ServerState × List Emission :=
  (st, broadcastExcept st (roomName spaceId) sock "content:added"
        (.contentAdded content))

/-- The `disconnect` handler only logs; Socket.io itself removes a
disconnected socket from all of its rooms.  No `user:left` (or any other
event) is emitted. -/
def handleDisconnect (st : ServerState) (sock : String) :
    ServerState × List Emission :=
  (⟨st.rooms.filter (fun m => m.1 != sock)⟩, [])

/-- The inbound events the server reacts to. -/
inductive Action where
  | spaceJoin (sock spaceId userId userName : String)
  | spaceLeave (sock spaceId : String)
  | contentMove (sock spaceId contentId : String) (position : EtherContentPosition)
  | contentAdd (sock spaceId : String) (content : EtherContent)
  | disconnect (sock : String)

/-- Dispatch one inbound event to its handler. -/
def step (st : ServerState) : Action → ServerState × List Emission
  | .spaceJoin sock spaceId userId userName => handleSpaceJoin st sock spaceId userId userName
  | .spaceLeave sock spaceId => handleSpaceLeave st sock spaceId
  | .contentMove sock spaceId contentId position => handleContentMove st sock spaceId contentId position
  | .contentAdd sock spaceId content => handleContentAdd st sock spaceId content
  | .disconnect sock => handleDisconnect st sock

/-- Process a sequence of inbound events, accumulating every emission. -/
def run (st : ServerState) : List Action → ServerState × List Emission
  | [] => (st, [])
  | a :: as =>
    let r := step st a
    let r' := run r.1 as
    (r'.1, r.2 ++ r'.2)

/-! ## Client — `ether-space.svelte` -/

/-- The component state of `ether-space.svelte` that the sync logic touches:
the space id prop, whether `initSocket()` returned a socket object, and the
`items` array. -/
structure EtherSpaceState where
  spaceId : String
  socketSet : Bool
  items : List EtherContent
deriving DecidableEq

/-- A `socket.emit('content:move', {spaceId, contentId, position})` issued by
the client. -/
structure ClientEmit where
  event : String
  spaceId : String
  contentId : String
  position : EtherContentPosition
deriving DecidableEq

/-- The local half of `updateItemPosition`:
`items.findIndex(item => item.id === id)`, then, when
`index >= 0 && items[index]?.id` (the id string is truthy, i.e. non-empty),
replace `items[index]` by a copy with the new position (the spread keeps the
item's own id, since `findIndex` matched it). -/
def applyLocalMove (items : List EtherContent) (id : String)
    (newPos : EtherContentPosition) : List EtherContent :=
  match items.findIdx? (fun it => it.id == id) with
  | some i =>
    match items[i]? with
    | some it =>
      if it.id == "" then items else items.set i { it with position := newPos }
    | none => items
  | none => items

/-- `updateItemPosition(id, newPosition)`: apply the move locally, then — in
all cases, found or not — `socket.emit('content:move', ...)` whenever the
socket object is set. -/
def updateItemPosition (st : EtherSpaceState) (id : String)
    (newPos : EtherContentPosition) : EtherSpaceState × List ClientEmit :=
  ({ st with items := applyLocalMove st.items id newPos },
   if st.socketSet then [⟨"content:move", st.spaceId, id, newPos⟩] else [])

/-- The `content:moved` listener: it just calls `updateItemPosition` with the
received `contentId` and `position`. -/
def handleContentMoved (st : EtherSpaceState) (contentId : String)
    (position : EtherContentPosition) : EtherSpaceState × List ClientEmit :=
  updateItemPosition st contentId position

/-- The `content:added` listener: `items = [...items, data.content]` — a plain
append, with no check that the id is new. -/
def handleContentAdded (st : EtherSpaceState) (content : EtherContent) :
    EtherSpaceState :=
  { st with items := st.items ++ [content] }

/-! ## Client socket utility — `src/lib/socket-client.ts` (app_plan.md) -/

/-- One queued `(event, data)` pair; the data is opaque to the queueing
logic. -/
structure WireMsg where
  event : String
  data : String
deriving DecidableEq

/-- The module state of `socket-client.ts`: the socket's connected flag and
the `pendingMessages` array. -/
structure SocketClientState where
  connected : Bool
  pendingMessages : List WireMsg
deriving DecidableEq

/-- `emitWithRetry(event, data)`: emit immediately when connected, otherwise
push onto `pendingMessages`.  No capacity check, no eviction.  Returns the new
state and the messages actually sent to the server. -/
def emitWithRetry (st : SocketClientState) (m : WireMsg) :
    SocketClientState × List WireMsg :=
  if st.connected then (st, [m])
  else ({ st with pendingMessages := st.pendingMessages ++ [m] }, [])

/-- The `connect` handler: emit every pending message in array order, then
clear the array. -/
def onConnect (st : SocketClientState) : SocketClientState × List WireMsg :=
  ({ connected := true, pendingMessages := [] }, st.pendingMessages)

/-- Iterate `emitWithRetry` over a list of messages (keeping only the state). -/
def enqueueAll (st : SocketClientState) : List WireMsg → SocketClientState
  | [] => st
  | m :: ms => enqueueAll (emitWithRetry st m).1 ms

/-! ## `MemoryManager` — `src/lib/utils/memory.ts` (app_plan.md) -/

/-- A cache entry: `{ data, lastAccessed }`. -/
structure CacheEntry where
  data : String
  lastAccessed : Nat
deriving DecidableEq

/-- The JS `Map<string, CacheEntry>`, as an association list in insertion
order with duplicate-free keys. -/
abbrev Cache := List (String × CacheEntry)

/-- `private maxItems = 100`. -/
def maxItems : Nat := 100

/-- `Map.prototype.get`. -/
def mapLookup : Cache → String → Option CacheEntry
  | [], _ => none
  | (k', e) :: rest, k => if k' == k then some e else mapLookup rest k

/-- `Map.prototype.set`: an existing key keeps its slot, a new key is
appended. -/
def mapSet : Cache → String → CacheEntry → Cache
  | [], k, e => [(k, e)]
  | (k', e') :: rest, k, e =>
    if k' == k then (k, e) :: rest else (k', e') :: mapSet rest k e

/-- `Map.prototype.delete`. -/
def mapDelete (c : Cache) (k : String) : Cache :=
  c.filter (fun p => p.1 != k)

/-- The comparator `(a, b) => a[1].lastAccessed - b[1].lastAccessed`: ascending
order on `lastAccessed`. -/
def laR (a b : String × CacheEntry) : Prop :=
  a.2.lastAccessed ≤ b.2.lastAccessed

instance : DecidableRel laR := fun a b =>
  inferInstanceAs (Decidable (a.2.lastAccessed ≤ b.2.lastAccessed))

instance : IsTotal (String × CacheEntry) laR :=
  ⟨fun a b => Nat.le_total a.2.lastAccessed b.2.lastAccessed⟩

instance : IsTrans (String × CacheEntry) laR :=
  ⟨fun _ _ _ => Nat.le_trans⟩

/-- `Array.from(cache.entries()).sort((a, b) => a[1].lastAccessed -
b[1].lastAccessed)`: a stable ascending sort of the entries.  (Insertion sort
with a `≤` test is stable, matching the ES2019 stable `Array.sort`.) -/
def sortByLastAccessed (c : Cache) : Cache :=
  List.insertionSort laR c

/-- `MemoryManager.set(key, value)` at time `now` (`Date.now()`): when
`cache.size >= maxItems`, delete `entries[0][0]` of the sorted entry array
(a least-recently-accessed key), then `cache.set(key, {data, lastAccessed:
now})`. -/
def MemoryManager.set (c : Cache) (k v : String) (now : Nat) : Cache :=
  let c' :=
    if maxItems ≤ c.length then
      match sortByLastAccessed c with
      | [] => c
      | oldest :: _ => mapDelete c oldest.1
    else c
  mapSet c' k ⟨v, now⟩

/-- `MemoryManager.get(key)` at time `now`: on a hit, refresh the entry's
`lastAccessed` in place and return its data; on a miss return `null`. -/
def MemoryManager.get (c : Cache) (k : String) (now : Nat) :
    Option String × Cache :=
  match mapLookup c k with
  | some e => (some e.data, mapSet c k ⟨e.data, now⟩)
  | none => (none, c)

/-! ## Concrete scenarios -/

/-- Sockets "A" and "B" join space "s"; "A" moves `item-1`, then "B" sends a
competing move for `item-1` — with equal (absent) versions and "B" sorting
above the stored last writer "A", the spec's reconciler would reject it. -/
def c1trace : List Action :=
  [.spaceJoin "A" "s" "uA" "Alice",
   .spaceJoin "B" "s" "uB" "Bob",
   .contentMove "A" "s" "item-1" ⟨10, 10⟩,
   .contentMove "B" "s" "item-1" ⟨5, 5⟩]

/-- "A" and "C" share space "s"; "C"'s transport drops; three moves E1, E2, E3
are then issued for the room.  The spec expects "C" to receive all three, in
order, on reconnect. -/
def c5trace : List Action :=
  [.spaceJoin "A" "s" "uA" "Alice",
   .spaceJoin "C" "s" "uC" "Carol",
   .disconnect "C",
   .contentMove "A" "s" "item-1" ⟨1, 1⟩,
   .contentMove "A" "s" "item-1" ⟨2, 2⟩,
   .contentMove "A" "s" "item-1" ⟨3, 3⟩]

/-- 257 distinct messages, one more than the spec's suggested queue bound. -/
def c6msgs : List WireMsg :=
  (List.range 257).map (fun i => ⟨"content:move", toString i⟩)

/-- A small concrete `MemoryManager` cache: key "a" (accessed at 5) and
key "b" (accessed at 3). -/
def c10cache : Cache := [("a", ⟨"da", 5⟩), ("b", ⟨"db", 3⟩)]

end TheEther

/-! ## Helper lemmas -/

namespace TheEther

/-- Nothing produced by `broadcastExcept` targets the sender. -/
theorem filter_map_sender_eq_nil (l : List String) (sender ev : String) (p : Payload) :
    (((l.filter (fun t => t != sender)).map (fun t => (⟨t, ev, p⟩ : Emission))).filter
      (fun e => e.target == sender)) = [] := by
  induction l with
  | nil => rfl
  | cons a as ih =>
    cases h : a == sender
    · simp only [List.filter_cons, bne, h, Bool.not_false, if_pos, List.map_cons]
      simpa [h] using ih
    · simpa [List.filter_cons, bne, h] using ih

/-- `broadcastExcept` never targets the sender. -/
theorem broadcastExcept_no_sender (st : ServerState) (room sender ev : String)
    (p : Payload) :
    (broadcastExcept st room sender ev p).filter (fun e => e.target == sender) = [] :=
  filter_map_sender_eq_nil (membersOf st room) sender ev p

/-- Every emission of `broadcastExcept` goes to a room member other than the
sender. -/
theorem target_ne_sender_of_mem_broadcastExcept
    {st : ServerState} {room sender ev : String} {p : Payload} {e : Emission}
    (he : e ∈ broadcastExcept st room sender ev p) : e.target ≠ sender := by
  unfold broadcastExcept at he
  obtain ⟨t, ht, rfl⟩ := List.mem_map.mp he
  have h := List.of_mem_filter ht
  simpa using h

/-- Folding `emitWithRetry` from a disconnected state appends everything to
`pendingMessages`, in order, and stays disconnected. -/
theorem enqueueAll_disconnected :
    ∀ (ms q : List WireMsg), enqueueAll ⟨false, q⟩ ms = ⟨false, q ++ ms⟩
  | [], q => by simp [enqueueAll]
  | m :: ms, q => by
    have ih := enqueueAll_disconnected ms (q ++ [m])
    simpa [enqueueAll, emitWithRetry] using ih

/-- Replacing the position of the element at a valid index leaves the list of
item ids unchanged. -/
theorem map_id_set :
    ∀ (l : List EtherContent) (i : Nat) (it : EtherContent) (p : EtherContentPosition),
      l[i]? = some it →
      (l.set i { it with position := p }).map EtherContent.id = l.map EtherContent.id
  | [], i, it, p, h => by simp at h
  | a :: as, 0, it, p, h => by
    simp only [List.getElem?_cons_zero, Option.some.injEq] at h
    subst h
    simp [List.set]
  | a :: as, n + 1, it, p, h => by
    simp only [List.getElem?_cons_succ] at h
    simp [List.set, map_id_set as n it p h]

/-- `applyLocalMove` never changes the list of item ids. -/
theorem applyLocalMove_map_id (items : List EtherContent) (id : String)
    (p : EtherContentPosition) :
    (applyLocalMove items id p).map EtherContent.id = items.map EtherContent.id := by
  unfold applyLocalMove
  split
  · rename_i i heq
    split
    · rename_i it heq2
      split
      · rfl
      · exact map_id_set items i it p heq2
    · rfl
  · rfl

/-- `Map.set` adds at most one entry. -/
theorem mapSet_length_le : ∀ (c : Cache) (k : String) (e : CacheEntry),
    (mapSet c k e).length ≤ c.length + 1
  | [], _, _ => by simp [mapSet]
  | (k', e') :: rest, k, e => by
    cases h : k' == k
    · simpa [mapSet, h] using Nat.succ_le_succ (mapSet_length_le rest k e)
    · simp [mapSet, h]

/-- Deleting a key that is present strictly shrinks the map. -/
theorem mapDelete_length_lt :
    ∀ (c : Cache) (p : String × CacheEntry), p ∈ c → (mapDelete c p.1).length < c.length
  | [], p, hp => absurd hp (List.not_mem_nil p)
  | a :: as, p, hp => by
    by_cases h : a.1 = p.1
    · have hle := List.length_filter_le (fun q => q.1 != p.1) as
      simp only [mapDelete, List.filter_cons, h, bne_self_eq_false, Bool.false_eq_true,
        if_neg, not_false_eq_true, List.length_cons]
      simp only [mapDelete] at hle
      omega
    · have hpas : p ∈ as := by
        rcases List.mem_cons.mp hp with h1 | h1
        · exact absurd (congrArg Prod.fst h1.symm) h
        · exact h1
      have ih := mapDelete_length_lt as p hpas
      simp only [mapDelete, List.filter_cons, bne_iff_ne, ne_eq, h, not_false_eq_true,
        if_pos, List.length_cons] at ih ⊢
      omega

/-- Looking up the key just written returns the written entry. -/
theorem mapLookup_mapSet : ∀ (c : Cache) (k : String) (e : CacheEntry),
    mapLookup (mapSet c k e) k = some e
  | [], k, e => by simp [mapSet, mapLookup]
  | (k', e') :: rest, k, e => by
    by_cases h : k' = k
    · simp [mapSet, mapLookup, h]
    · simp [mapSet, mapLookup, h, mapLookup_mapSet rest k e]

/-- The head of the sorted entry list is one of the entries. -/
theorem head_mem_of_sort {c : Cache} {oldest : String × CacheEntry} {tail : Cache}
    (hs : sortByLastAccessed c = oldest :: tail) : oldest ∈ c := by
  have hm : oldest ∈ sortByLastAccessed c := by
    rw [hs]; exact List.mem_cons_self _ _
  exact (List.perm_insertionSort laR c).mem_iff.mp hm

/-- The head of the sorted entry list has a minimal `lastAccessed`. -/
theorem head_min_of_sort {c : Cache} {oldest : String × CacheEntry} {tail : Cache}
    (hs : sortByLastAccessed c = oldest :: tail) :
    ∀ p ∈ c, oldest.2.lastAccessed ≤ p.2.lastAccessed := by
  intro p hp
  have hsorted : List.Sorted laR (sortByLastAccessed c) := List.sorted_insertionSort laR c
  rw [hs] at hsorted
  have hmem : p ∈ sortByLastAccessed c :=
    (List.perm_insertionSort laR c).mem_iff.mpr hp
  rw [hs] at hmem
  rcases List.mem_cons.mp hmem with h1 | h1
  · subst h1; exact Nat.le_refl _
  · exact (List.sorted_cons.mp hsorted).1 p h1

end TheEther

/-! ## Claims -/

namespace TheEther

/-- Claim C1 (counterexample).  "A" has just moved `item-1` and is the stored
last writer; "B"'s competing move arrives with no greater version (the wire
carries no version at all) and a connection id that sorts above "A", so the
claim requires it to be rejected with `StaleUpdate` and not broadcast.  The
code broadcasts it to "A": the `content:move` handler keeps no `ContentState`,
compares no versions, and has no rejection branch. -/
theorem c1_stale_update_still_broadcast :
    (run ⟨[]⟩ c1trace).2.filter (fun e => e.target == "A" && e.event == "content:moved")
      = [⟨"A", "content:moved", .contentMoved "item-1" ⟨5, 5⟩⟩] := by decide

/-- Claim C1 (amended).  Every `content:move` update is accepted and relayed
unconditionally: the server state is untouched, the `content:moved` broadcast
goes to exactly the room members other than the sender, and every emission
carries the proposer's `contentId` and `position` verbatim; no version check
or `StaleUpdate` rejection exists. -/
theorem c1_moves_relayed_unconditionally (st : ServerState)
    (sock spaceId contentId : String) (p : EtherContentPosition) :
    (handleContentMove st sock spaceId contentId p).1 = st
    ∧ (handleContentMove st sock spaceId contentId p).2.map Emission.target
        = (membersOf st (roomName spaceId)).filter (fun t => t != sock)
    ∧ (handleContentMove st sock spaceId contentId p).2.all
        (fun e => e.event == "content:moved"
          && e.payload == Payload.contentMoved contentId p) = true := by
  refine ⟨rfl, ?_, ?_⟩
  · simp only [handleContentMove, broadcastExcept, List.map_map]
    exact List.map_id _
  · rw [List.all_eq_true]
    intro e he
    simp only [handleContentMove, broadcastExcept] at he
    obtain ⟨t, _, rfl⟩ := List.mem_map.mp he
    simp

/-- Claim C2 (counterexample).  The only live per-item state in the code is
the client's `items` array; `content:added` appends without checking the id,
so after receiving an add for an id that is already present, two entries for
item id "x" coexist — the "at most one ContentState per item id" half of the
claim fails (and no version counter exists anywhere to compare). -/
theorem c2_duplicate_content_ids :
    ((handleContentAdded ⟨"s", true, [⟨"x", ⟨0, 0⟩, "d0"⟩]⟩ ⟨"x", ⟨1, 1⟩, "d1"⟩).items.filter
      (fun it => it.id == "x")).length = 2 := by decide

/-- Claim C2 (amended).  Moves never create or destroy entries — they preserve
the list of item ids, changing at most the first entry matching the moved id —
but `content:added` appends blindly, so uniqueness of ids is not maintained,
and no version counter exists: every move overwrites the position
unconditionally. -/
theorem c2_ids_preserved_without_versions (st : EtherSpaceState) (id : String)
    (p : EtherContentPosition) (c : EtherContent) :
    ((updateItemPosition st id p).1.items.map EtherContent.id
        = st.items.map EtherContent.id)
    ∧ (handleContentAdded st c).items = st.items ++ [c] :=
  ⟨applyLocalMove_map_id st.items id p, rfl⟩

/-- Claim C3 (counterexample).  The complete server reaction to "A" joining
space "s" (where "B" is already a member) is a single `user:joined` emission
to "B": the joiner "A" receives nothing — no member list, no content snapshot
(the server holds no content state at all), and there is no ack/reply path in
the handler. -/
theorem c3_join_sends_nothing_to_joiner :
    (handleSpaceJoin ⟨[("B", "space:s")]⟩ "A" "s" "uA" "Alice").2
      = [⟨"B", "user:joined", .userJoined "uA" "Alice" "A"⟩] := by decide

/-- Claim C3 (amended).  `space:join` only registers the membership and emits
`user:joined` to the other members; nothing is ever emitted to the joining
connection, which must initialize its view from the `initialItems` prop
delivered by the page load, not from a join reply. -/
theorem c3_join_only_notifies_others (st : ServerState)
    (sock spaceId uid uname : String) :
    (handleSpaceJoin st sock spaceId uid uname).1 = joinRoom st sock (roomName spaceId)
    ∧ (handleSpaceJoin st sock spaceId uid uname).2.filter
        (fun e => e.target == sock) = []
    ∧ (handleSpaceJoin st sock spaceId uid uname).2.all
        (fun e => e.event == "user:joined") = true := by
  refine ⟨rfl, broadcastExcept_no_sender _ _ _ _ _, ?_⟩
  rw [List.all_eq_true]
  intro e he
  simp only [handleSpaceJoin, broadcastExcept] at he
  obtain ⟨t, _, rfl⟩ := List.mem_map.mp he
  simp

/-- Claim C4 (confirmed).  `content:move` is relayed via `socket.to(room)`,
which excludes the sender: no emission produced by the handler targets the
originating connection, so a client never receives its own `content:moved`
broadcast for the event it issued. -/
theorem c4_no_self_echo (st : ServerState) (sock spaceId contentId : String)
    (p : EtherContentPosition) :
    ((handleContentMove st sock spaceId contentId p).2.all
      (fun e => e.target != sock)) = true := by
  rw [List.all_eq_true]
  intro e he
  have h2 : e ∈ broadcastExcept st (roomName spaceId) sock "content:moved"
      (.contentMoved contentId p) := he
  simpa using target_ne_sender_of_mem_broadcastExcept h2

/-- Claim C5 (counterexample).  "C" shares space "s" with "A", then "C"'s
transport drops; three moves E1, E2, E3 are issued while "C" is disconnected.
The claim requires "C" to receive E1, E2, E3 in order upon reconnect; in the
code nothing at all is ever delivered to "C" — a disconnected socket leaves
the room, the server keeps no per-connection queue, and the only pending
queue (client-side `pendingMessages`) holds a connection's own outgoing
emits, not broadcasts addressed to it. -/
theorem c5_offline_broadcasts_lost :
    (run ⟨[]⟩ c5trace).2.filter (fun e => e.target == "C") = [] := by decide

/-- Claim C5 (amended).  The only replay mechanism is the client-side
`pendingMessages` queue of the connection's own outgoing emits: messages
emitted while disconnected are appended in order, and the `connect` handler
flushes exactly those messages, in enqueue order, and clears the queue (no
eviction exists).  Broadcasts addressed to a disconnected connection are
lost, not replayed. -/
theorem c5_flush_in_enqueue_order (q0 ms : List WireMsg) :
    onConnect (enqueueAll ⟨false, q0⟩ ms) = (⟨true, []⟩, q0 ++ ms) := by
  rw [enqueueAll_disconnected]
  rfl

/-- Claim C6 (counterexample).  Enqueuing 257 messages while disconnected
grows `pendingMessages` to length 257, past the claimed bound of 256: the
queue has no capacity check and never evicts. -/
theorem c6_queue_exceeds_256 :
    256 < ((enqueueAll ⟨false, []⟩ c6msgs).pendingMessages).length := by
  rw [enqueueAll_disconnected]
  simp [c6msgs]

/-- Claim C6 (amended).  The pending-message queue is unbounded: while
disconnected, `emitWithRetry` always appends the new message at the tail —
the length grows by exactly one, nothing is evicted, and no capacity bound
exists. -/
theorem c6_enqueue_appends_unbounded (q : List WireMsg) (m : WireMsg) :
    emitWithRetry ⟨false, q⟩ m = (⟨false, q ++ [m]⟩, [])
    ∧ (emitWithRetry ⟨false, q⟩ m).1.pendingMessages.length = q.length + 1 :=
  ⟨rfl, by simp [emitWithRetry]⟩

/-- Claim C7 (counterexample).  "C" disconnects from a room it shares with
"A": the `disconnect` handler removes "C"'s memberships but emits nothing —
the remaining member "A" receives no `user:left`, contradicting the claim
that leaving by disconnect emits `user:left` to the remaining members. -/
theorem c7_disconnect_emits_no_user_left :
    handleDisconnect ⟨[("A", "space:s"), ("C", "space:s")]⟩ "C"
      = (⟨[("A", "space:s")]⟩, []) := by decide

/-- Claim C7 (amended).  On join, `user:joined` is emitted to all other
members and never to the joiner, but it carries `userId`, `username` AND
`socketId` (not user id and display name only); on explicit `space:leave`,
`user:left` is emitted to the remaining members carrying only the `socketId`
(no user id, no display name); on transport disconnect no `user:left` is
emitted at all. -/
theorem c7_presence_event_shapes (st : ServerState)
    (sock spaceId uid uname : String) :
    (handleSpaceJoin st sock spaceId uid uname).2
      = ((membersOf (joinRoom st sock (roomName spaceId)) (roomName spaceId)).filter
          (fun t => t != sock)).map
          (fun t => ⟨t, "user:joined", .userJoined uid uname sock⟩)
    ∧ (handleSpaceJoin st sock spaceId uid uname).2.filter
        (fun e => e.target == sock) = []
    ∧ (handleSpaceLeave st sock spaceId).2
      = ((membersOf (leaveRoom st sock (roomName spaceId)) (roomName spaceId)).filter
          (fun t => t != sock)).map (fun t => ⟨t, "user:left", .userLeft sock⟩)
    ∧ (handleDisconnect st sock).2 = [] :=
  ⟨rfl, broadcastExcept_no_sender _ _ _ _ _, rfl, rfl⟩

/-- Claim C8 (counterexample).  Joining with the malformed (empty) room id ""
succeeds: the membership ("A", "space:") is created and no failure of any
kind occurs — the handler performs no validation and has no error path, so
the claimed `InvalidRoom` rejection for empty ids does not exist. -/
theorem c8_empty_room_id_accepted :
    handleSpaceJoin ⟨[]⟩ "A" "" "uA" "Alice" = (⟨[("A", "space:")]⟩, []) := by decide

/-- Claim C8 (amended).  `space:join` never fails: for every state and every
room id — malformed or not — the join registers the connection under
`` `space:${spaceId}` ``, implicitly creating the room; no `InvalidRoom`
error (or any other failure) exists in the handler. -/
theorem c8_join_never_fails (st : ServerState) (sock spaceId uid uname : String) :
    (sock, roomName spaceId) ∈ (handleSpaceJoin st sock spaceId uid uname).1.rooms := by
  simp only [handleSpaceJoin, joinRoom]
  by_cases h : (sock, roomName spaceId) ∈ st.rooms
  · simp [h]
  · simp [h]

/-- Claim C9 (confirmed).  The `content:moved` listener calls
`updateItemPosition`, which — whenever the socket object is set, which is the
case whenever the socket is connected — re-emits `content:move` with the same
`contentId` and `position` after applying the update locally, so every
received broadcast generates a further `content:move` to the server. -/
theorem c9_moved_listener_reemits (st : EtherSpaceState) (contentId : String)
    (p : EtherContentPosition) (h : st.socketSet = true) :
    (handleContentMoved st contentId p).2
      = [⟨"content:move", st.spaceId, contentId, p⟩] := by
  simp [handleContentMoved, updateItemPosition, h]

/-- Witness for C9 at a concrete client state with the socket set. -/
theorem c9_moved_listener_reemits_witness :
    (⟨"s", true, []⟩ : EtherSpaceState).socketSet = true
    ∧ (handleContentMoved ⟨"s", true, []⟩ "item-1" ⟨3, 4⟩).2
        = [⟨"content:move", "s", "item-1", ⟨3, 4⟩⟩] :=
  ⟨rfl, c9_moved_listener_reemits ⟨"s", true, []⟩ "item-1" ⟨3, 4⟩ rfl⟩

/-- Claim C10 (confirmed).  Starting from any cache within the 100-entry
bound, `MemoryManager.set` never grows it past the bound; when the cache is
at or above capacity, the key deleted before inserting is an entry with the
smallest `lastAccessed` timestamp (the head of the stable ascending sort);
and on a hit `MemoryManager.get` returns the data and rewrites the entry's
`lastAccessed` to the current time, in place. -/
theorem c10_memory_manager_bounded_lru (c : Cache) (k v : String) (now : Nat)
    (hlen : c.length ≤ maxItems) :
    (MemoryManager.set c k v now).length ≤ maxItems
    ∧ (maxItems ≤ c.length →
        ∃ oldest, oldest ∈ c
          ∧ (∀ p ∈ c, oldest.2.lastAccessed ≤ p.2.lastAccessed)
          ∧ MemoryManager.set c k v now = mapSet (mapDelete c oldest.1) k ⟨v, now⟩)
    ∧ (∀ e, mapLookup c k = some e →
        MemoryManager.get c k now = (some e.data, mapSet c k ⟨e.data, now⟩)
        ∧ mapLookup (MemoryManager.get c k now).2 k = some ⟨e.data, now⟩) := by
  have hget : ∀ e, mapLookup c k = some e →
      MemoryManager.get c k now = (some e.data, mapSet c k ⟨e.data, now⟩)
      ∧ mapLookup (MemoryManager.get c k now).2 k = some ⟨e.data, now⟩ := by
    intro e he
    constructor
    · simp [MemoryManager.get, he]
    · simp [MemoryManager.get, he, mapLookup_mapSet]
  by_cases hcap : maxItems ≤ c.length
  · cases hsort : sortByLastAccessed c with
    | nil =>
      exfalso
      have hl : (sortByLastAccessed c).length = c.length :=
        List.length_insertionSort laR c
      rw [hsort] at hl
      have hm : 0 < maxItems := by decide
      simp only [List.length_nil] at hl
      omega
    | cons oldest tail =>
      have hset : MemoryManager.set c k v now
          = mapSet (mapDelete c oldest.1) k ⟨v, now⟩ := by
        simp only [MemoryManager.set, if_pos hcap, hsort]
      have hmem := head_mem_of_sort hsort
      have hmin := head_min_of_sort hsort
      have hdel : (mapDelete c oldest.1).length < c.length :=
        mapDelete_length_lt c oldest hmem
      have h1 := mapSet_length_le (mapDelete c oldest.1) k ⟨v, now⟩
      refine ⟨?_, fun _ => ⟨oldest, hmem, hmin, hset⟩, hget⟩
      rw [hset]
      omega
  · have hset : MemoryManager.set c k v now = mapSet c k ⟨v, now⟩ := by
      simp only [MemoryManager.set, if_neg hcap]
    have h1 := mapSet_length_le c k ⟨v, now⟩
    refine ⟨?_, fun h => absurd h hcap, hget⟩
    rw [hset]
    omega

/-- Witness for C10 at a concrete two-entry cache. -/
theorem c10_memory_manager_bounded_lru_witness :
    c10cache.length ≤ maxItems
    ∧ ((MemoryManager.set c10cache "a" "v2" 9).length ≤ maxItems
      ∧ (maxItems ≤ c10cache.length →
          ∃ oldest, oldest ∈ c10cache
            ∧ (∀ p ∈ c10cache, oldest.2.lastAccessed ≤ p.2.lastAccessed)
            ∧ MemoryManager.set c10cache "a" "v2" 9
                = mapSet (mapDelete c10cache oldest.1) "a" ⟨"v2", 9⟩)
      ∧ (∀ e, mapLookup c10cache "a" = some e →
          MemoryManager.get c10cache "a" 9
              = (some e.data, mapSet c10cache "a" ⟨e.data, 9⟩)
          ∧ mapLookup (MemoryManager.get c10cache "a" 9).2 "a" = some ⟨e.data, 9⟩)) :=
  ⟨by decide, c10_memory_manager_bounded_lru c10cache "a" "v2" 9 (by decide)⟩

end TheEther
